import Mathlib

/-!
Verification development for harbinger's traffic replay and routing engine
(`src/server.rs`, `src/har.rs`).  The Rust source is shallowly embedded:
pure functions become Lean functions, the filesystem and the md5 digest are
explicit parameters (`Env`), and the small pieces of third-party behaviour
the source leans on (rocket's URI parser, header map and route-URI
normalization, the `base64` crate's STANDARD engine) are modelled in
clearly marked definitions.  Strings are manipulated through their
character lists so that every definition reduces in the kernel.
-/

namespace Harbinger

/-- One HTTP header as recorded in the archive: a name/value pair. -/
structure Header where
  name : String
  value : String
deriving DecidableEq

/-- The nine HTTP verbs rocket's `Method` supports (the set matched in
`ProxyHandler::handle` and accepted by `Entry::method`). -/
inductive Method where
  | get | put | post | delete | options | head | trace | connect | patch
deriving DecidableEq

/-- ASCII lower-casing of one character (model of the case folding used by
Rust's `to_lowercase`/`uncased` on the ASCII header names and verbs the
program deals in). -/
def charLower (c : Char) : Char :=
  if 65 ≤ c.toNat ∧ c.toNat ≤ 90 then Char.ofNat (c.toNat + 32) else c

/-- ASCII lower-casing of a string. -/
def lowerStr (s : String) : String :=
  String.mk (s.toList.map charLower)

/-- `Method::to_string`: the canonical upper-case verb token. -/
def Method.toStr : Method → String
  | .get => "GET" | .put => "PUT" | .post => "POST" | .delete => "DELETE"
  | .options => "OPTIONS" | .head => "HEAD" | .trace => "TRACE"
  | .connect => "CONNECT" | .patch => "PATCH"

/-- Modelled from rocket's `Method::from_str` (used by `Entry::method`):
case-insensitive match against the standard verb set. -/
def parseMethod (s : String) : Option Method :=
  match lowerStr s with
  | "get" => some .get | "put" => some .put | "post" => some .post
  | "delete" => some .delete | "options" => some .options
  | "head" => some .head | "trace" => some .trace
  | "connect" => some .connect | "patch" => some .patch
  | _ => none

/-- The parsed form of an entry's recorded URL: scheme, raw authority
(verbatim, as `uri::Authority` displays it), host, path, query and
fragment. -/
structure ParsedUri where
  scheme : String
  authorityRaw : String
  host : String
  path : String
  query : Option String
  fragment : Option String
deriving DecidableEq

/-- Splits a character list at the first occurrence of the separator
`":" ++ "//"`; returns the part before it and the part after. -/
def findSchemeSplit : List Char → Option (List Char × List Char)
  | [] => none
  | ':' :: '/' :: '/' :: rest => some ([], rest)
  | c :: cs => (findSchemeSplit cs).map (fun p => (c :: p.1, p.2))

/-- Takes characters until one of `stops` is hit; returns the prefix and
the remainder (remainder starts with the stop character if one was hit). -/
def takeUntilAny (stops : List Char) : List Char → (List Char × List Char)
  | [] => ([], [])
  | c :: cs =>
    if stops.contains c then ([], c :: cs)
    else
      let p := takeUntilAny stops cs
      (c :: p.1, p.2)

/-- The host part of a raw authority: the characters after the userinfo
`@` (if any) and before the port `:` (if any). -/
def hostOfAuthority (auth : List Char) : List Char :=
  let afterUser :=
    match (auth.splitOn '@') with
    | [] => auth
    | [_] => auth
    | _ :: rest => List.intercalate ['@'] rest
  (takeUntilAny [':'] afterUser).1

/-- Modelled from rocket's URI-reference parser (`uri::Uri::parse::<Reference>`)
restricted to the absolute URLs with a nonempty authority that a HAR
capture records.  URI shapes on which the source's `authority().unwrap()`
calls would panic (no scheme or no authority) are mapped to `none`, the
same way a parse failure is. -/
def parseUri (s : String) : Option ParsedUri :=
  match findSchemeSplit s.toList with
  | none => none
  | some (schemeCs, rest) =>
    if schemeCs = [] then none
    else
      let p1 := takeUntilAny ['/', '?', '#'] rest
      if p1.1 = [] then none
      else
        let p2 := takeUntilAny ['?', '#'] p1.2
        let qf : Option String × Option String :=
          match p2.2 with
          | '?' :: qrest =>
            let p3 := takeUntilAny ['#'] qrest
            (some (String.mk p3.1),
             match p3.2 with
             | '#' :: f => some (String.mk f)
             | _ => none)
          | '#' :: f => (none, some (String.mk f))
          | _ => (none, none)
        some { scheme := String.mk schemeCs
             , authorityRaw := String.mk p1.1
             , host := String.mk (hostOfAuthority p1.1)
             , path := String.mk p2.1
             , query := qf.1
             , fragment := qf.2 }

/-- One HAR entry as the router consumes it (`har::v1_2::Entries` fields
used by `src/har.rs`): request method and URL, response headers, response
status, and the response content text. -/
structure Entry where
  method : String
  url : String
  resHeaders : List Header
  status : Int
  contentText : Option String
deriving DecidableEq

/-- `Entry::uri`: parse the recorded request URL. -/
def Entry.uri (e : Entry) : Option ParsedUri := parseUri e.url

/-- `Entry::method`: parse the recorded verb. -/
def Entry.methodParsed (e : Entry) : Option Method := parseMethod e.method

/-- `Entry::hostname`: the host of the parsed request URL. -/
def Entry.hostname (e : Entry) : Option String := e.uri.map (·.host)

/-- The value of one character in the standard base64 alphabet. -/
def b64Val (c : Char) : Option Nat :=
  if 65 ≤ c.toNat ∧ c.toNat ≤ 90 then some (c.toNat - 65)
  else if 97 ≤ c.toNat ∧ c.toNat ≤ 122 then some (c.toNat - 97 + 26)
  else if 48 ≤ c.toNat ∧ c.toNat ≤ 57 then some (c.toNat - 48 + 52)
  else if c = '+' then some 62
  else if c = '/' then some 63
  else none

/-- Modelled from the `base64` crate's `STANDARD` engine (`decode`):
standard alphabet, canonical `=` padding required, non-zero trailing bits
rejected.  Decodes four-character chunks; padding may appear only in the
final chunk. -/
def b64DecodeChunks : List Char → Option (List Nat)
  | [] => some []
  | [a, b, '=', '='] => do
    let va ← b64Val a
    let vb ← b64Val b
    if vb % 16 = 0 then some [va * 4 + vb / 16] else none
  | [a, b, c, '='] => do
    let va ← b64Val a
    let vb ← b64Val b
    let vc ← b64Val c
    if vc % 4 = 0 then some [va * 4 + vb / 16, vb % 16 * 16 + vc / 4]
    else none
  | a :: b :: c :: d :: rest => do
    let va ← b64Val a
    let vb ← b64Val b
    let vc ← b64Val c
    let vd ← b64Val d
    let tail ← b64DecodeChunks rest
    some ((va * 4 + vb / 16) :: (vb % 16 * 16 + vc / 4) :: (vc % 4 * 64 + vd) :: tail)
  | _ => none

/-- Attempted standard base64 decoding of a stored body text. -/
def base64Decode (s : String) : Option (List Nat) := b64DecodeChunks s.toList

/-- The UTF-8 encoding of one character (the bytes Rust's `str::as_bytes`
yields). -/
def utf8Bytes (c : Char) : List Nat :=
  let n := c.toNat
  if n < 128 then [n]
  else if n < 2048 then [192 + n / 64, 128 + n % 64]
  else if n < 65536 then [224 + n / 4096, 128 + n / 64 % 64, 128 + n % 64]
  else [240 + n / 262144, 128 + n / 4096 % 64, 128 + n / 64 % 64, 128 + n % 64]

/-- The UTF-8 bytes of a string. -/
def strBytes (s : String) : List Nat := (s.toList.map utf8Bytes).flatten

/-- `Entry::res_body`: `None` when the archive stored no content text;
otherwise the base64 decoding of the text when it decodes, and the text's
raw UTF-8 bytes when it does not. -/
def Entry.res_body (e : Entry) : Option (List Nat) :=
  e.contentText.map fun body =>
    match base64Decode body with
    | some decoded => decoded
    | none => strBytes body

/-- Splits a character list on `/` (so that `joinSlash` is its inverse). -/
def splitSlash : List Char → List (List Char)
  | [] => [[]]
  | c :: rest =>
    if c = '/' then [] :: splitSlash rest
    else
      match splitSlash rest with
      | [] => [[c]]
      | s :: ss => (c :: s) :: ss

/-- Joins character-list segments with `/` between them. -/
def joinSlash : List (List Char) → List Char
  | [] => []
  | [s] => s
  | s :: rest => s ++ '/' :: joinSlash rest

/-- The scanning loop of `replaceAllCs`; the fuel starts at the list's
length and dominates it throughout, so the fuel-exhausted arm is never
reached. -/
def replaceAllGo (p : Char) (ps : List Char) : Nat → List Char → List Char
  | _, [] => []
  | 0, _ :: _ => []
  | f + 1, c :: cs =>
    if (p :: ps).isPrefixOf (c :: cs) then replaceAllGo p ps f (cs.drop ps.length)
    else c :: replaceAllGo p ps f cs

/-- Replaces every (non-overlapping, left-to-right) occurrence of the
pattern `p :: ps` in a character list by nothing — the model of Rust's
`str::replace(pat, "")`. -/
def replaceAllCs (p : Char) (ps : List Char) (cs : List Char) : List Char :=
  replaceAllGo p ps cs.length cs

/-- The UTF-8 byte length of a character list (Rust's `OsStr::len` on the
path components at hand). -/
def csUtf8Len (cs : List Char) : Nat := cs.foldl (fun n c => n + c.utf8Size) 0

/-- The character prefix spanning exactly `n` UTF-8 bytes, or `none` when
`n` is not a character boundary — the model of Rust's `str::get(..n)`. -/
def bytePrefixCs (cs : List Char) (n : Nat) : Option (List Char) :=
  if n = 0 then some []
  else
    match cs with
    | [] => none
    | c :: rest =>
      if c.utf8Size ≤ n then (bytePrefixCs rest (n - c.utf8Size)).map (c :: ·)
      else none

/-- `uniquely_truncate` (src/har.rs): truncates a string to `limit` bytes
less the size of its md5 hash, appending `_` and the hash; when byte
`limit - 32` is not a character boundary (or the string is shorter) the
whole string is kept.  The md5 digest itself comes from the `md5` crate
and is passed in as `md5hex` (no claim depends on its value). -/
def uniquely_truncate (md5hex : String → String) (s : String) (limit : Nat) : String :=
  let substr :=
    match bytePrefixCs s.toList (limit - 32) with
    | some cs => String.mk cs
    | none => s
  substr ++ "_" ++ md5hex s

/-- The components Rust's `Path::components` yields for the scheme-stripped
URL: the `/`-separated segments with empty segments and `.` removed. -/
def pathComponents (url : List Char) : List (List Char) :=
  (splitSlash url).filter fun s => ¬(s = [] ∨ s = ['.'])

/-- `Entry::get_dump_path`: strip `http://` then `https://` from the
recorded URL, start from the base directory, push the upper-case method,
push each path component (components longer than 200 bytes are uniquely
truncated), and push `__index__` when the URL ends in `/`.  Paths are
modelled as their list of pushed components. -/
def Entry.get_dump_path (md5hex : String → String) (e : Entry)
    (base : List String) : Option (List String) :=
  let url := replaceAllCs 'h' "ttps://".toList
    (replaceAllCs 'h' "ttp://".toList e.url.toList)
  e.methodParsed.map fun m =>
    base ++ [m.toStr]
      ++ (pathComponents url).map (fun cs =>
            if 200 < csUtf8Len cs then uniquely_truncate md5hex (String.mk cs) 200
            else String.mk cs)
      ++ (if url.getLast? = some '/' then ["__index__"] else [])

/-- The ambient effects the handlers touch: the md5 digest used by
`uniquely_truncate`, and the read-only filesystem of override files
(`Path::exists` and `std::fs::read`). -/
structure Env where
  md5hex : String → String
  fsExists : List String → Bool
  fsRead : List String → Except Unit (List Nat)

/-- The embedded-body arm of `EntryHandler::get_body`: the `info!` call
evaluates `entry.method()?` and `entry.uri()?`, so either parse failure is
an error; otherwise the body is `res_body().unwrap_or(vec![])`. -/
def harBody (e : Entry) : Except Unit (List Nat) :=
  if e.methodParsed.isSome && e.uri.isSome then .ok (e.res_body.getD [])
  else .error ()

/-- `EntryHandler::get_body`: when a dump path is configured and a file
exists at the entry's dump path, read that file (the `info!` before the
read evaluates `entry.uri()?`); otherwise fall back to the embedded HAR
body. -/
def get_body (env : Env) (dump : Option (List String)) (e : Entry) :
    Except Unit (List Nat) :=
  match dump with
  | some base =>
    match e.get_dump_path env.md5hex base with
    | none => .error ()
    | some p =>
      if env.fsExists p then
        if e.uri.isSome then env.fsRead p else .error ()
      else harBody e
  | none => harBody e

/-- `UNFORWARDED_HEADERS` (src/server.rs): response headers never copied
into a replayed response. -/
def UNFORWARDED_HEADERS : List String :=
  [ "x-frame-options"
  , "x-content-type-options"
  , "x-xss-protection"
  , "access-control-allow-origin"
  , "access-control-allow-credentials"
  , "content-encoding"
  , "transfer-encoding"
  , "content-length" ]

/-- Modelled from rocket's `Response::set_raw_header` / `HeaderMap::replace`:
every header whose name matches case-insensitively is removed and the new
pair is added.  The header map is modelled as the list of its pairs. -/
def setHeader (hs : List Header) (n v : String) : List Header :=
  hs.filter (fun h => lowerStr h.name ≠ lowerStr n) ++ [⟨n, v⟩]

/-- Modelled from rocket's `HeaderMap::get_one`: the first value stored
under a name, compared case-insensitively. -/
def lookupHeader (hs : List Header) (n : String) : Option String :=
  (hs.find? (fun h => lowerStr h.name = lowerStr n)).map (·.value)

/-- The `Location` rewrite in `EntryHandler::handle`: a root-relative
value is prefixed with `/` and the entry's hostname, any other value with
`/`, the hostname and `/`. -/
def rewriteLocation (hostname value : String) : String :=
  if value.toList.head? = some '/' then "/" ++ hostname ++ value
  else "/" ++ hostname ++ "/" ++ value

/-- One iteration of the response-header loop in `EntryHandler::handle`:
skip names on the denylist, rewrite `Location` values, copy everything
else. -/
def applyResHeader (hostname : String) (acc : List Header) (hdr : Header) :
    List Header :=
  let normalized := lowerStr hdr.name
  if UNFORWARDED_HEADERS.contains normalized then acc
  else if normalized = "location" then
    setHeader acc hdr.name (rewriteLocation hostname hdr.value)
  else setHeader acc hdr.name hdr.value

/-- The full response-header loop over the entry's recorded response
headers. -/
def processResHeaders (hostname : String) (headers : List Header) : List Header :=
  headers.foldl (applyResHeader hostname) []

/-- The components of the fixed Content-Security-Policy, joined with
`"; "` exactly as the source does. -/
def cspComponents : List String :=
  [ "base-uri 'self'"
  , "default-src * 'unsafe-inline' 'unsafe-eval'"
  , "worker-src 'self'" ]

/-- Joins strings with a separator (`[_].join(sep)`). -/
def joinSep (sep : String) : List String → String
  | [] => ""
  | [s] => s
  | s :: rest => s ++ sep ++ joinSep sep rest

/-- The headers of a replayed response: the rewritten recorded headers,
then the unconditional Content-Security-Policy override. -/
def buildResponseHeaders (hostname : String) (headers : List Header) : List Header :=
  setHeader (processResHeaders hostname headers) "content-security-policy"
    (joinSep "; " cspComponents)

/-- A synthesized HTTP response: status, headers and body bytes. -/
structure Resp where
  status : Nat
  headers : List Header
  body : List Nat
deriving DecidableEq

/-- A rocket handler outcome: a successful response, a failure forwarded
to the error catcher with a status code, a forward to the next matching
mechanism, or a panic (`unwrap` on an error). -/
inductive Outcome where
  | success (r : Resp)
  | failure (code : Nat)
  | forward
  | panicked
deriving DecidableEq

/-- The matched-entry arm of `EntryHandler::handle`: rewrite the headers,
set the fixed CSP, resolve the body (an I/O error becomes
`Outcome::Failure(InternalServerError)`), and copy the recorded status
cast to `u16`. -/
def respond (env : Env) (dump : Option (List String)) (e : Entry)
    (u : ParsedUri) : Outcome :=
  let headers := buildResponseHeaders u.host e.resHeaders
  match get_body env dump e with
  | .error _ => .failure 500
  | .ok body =>
    .success { status := (e.status % 65536).toNat, headers := headers, body := body }

/-- `EntryHandler::handle`: scan the group's entries in order; the first
whose query string equals the inbound query is replayed; when none
matches the request is forwarded.  `entry.uri().unwrap()` panics on an
unparsable URL. -/
def entryHandle (env : Env) (dump : Option (List String)) (q : Option String) :
    List Entry → Outcome
  | [] => .forward
  | e :: rest =>
    match e.uri with
    | none => .panicked
    | some u => if u.query = q then respond env dump e u else entryHandle env dump q rest

/-- A URL as `reqwest::Url` carries it: scheme, host, optional port, path
and optional query. -/
structure Url where
  scheme : String
  host : String
  port : Option Nat
  path : String
  query : Option String
deriving DecidableEq

/-- The parts of an inbound request the handlers look at. -/
structure InboundRequest where
  method : Method
  path : String
  query : Option String
  headers : List Header
  body : List Nat
deriving DecidableEq

/-- The outbound request the proxy handler builds. -/
structure OutboundRequest where
  method : Method
  url : Url
  headers : List Header
  body : Option (List Nat)
deriving DecidableEq

/-- Lines 117–134 of `ProxyHandler::handle`: clone the configured
upstream URL, set its path to the inbound path, set its query to the
inbound query only when the inbound request has one, and build a request
with the inbound method and nothing else — no headers, no body. -/
def buildProxyRequest (upstream : Url) (req : InboundRequest) : OutboundRequest :=
  let url := { upstream with path := req.path }
  let url :=
    match req.query with
    | some q => { url with query := some q }
    | none => url
  { method := req.method, url := url, headers := [], body := none }

/-- What an upstream send yields once awaited: status, headers, and the
result of reading the body bytes. -/
structure UpstreamResponse where
  status : Nat
  headers : List Header
  bodyBytes : Except Unit (List Nat)

/-- The relay part of `ProxyHandler::handle`, applied to the result of
`client.execute`: a transport failure hits `.unwrap()` and panics; on
success the status is copied (`Status::from_code(..).unwrap()` panics
outside 100–599), every upstream header is adjoined unfiltered, and the
body is set when its bytes could be read. -/
def proxyHandle (upstream : Url) (req : InboundRequest)
    (result : Except Unit UpstreamResponse) : Outcome :=
  match result with
  | .error _ => .panicked
  | .ok r =>
    if 100 ≤ r.status ∧ r.status ≤ 599 then
      .success { status := r.status, headers := r.headers
               , body := match r.bodyBytes with | .ok b => b | .error _ => [] }
    else .panicked

/-- The route key `Har::entries` groups by: the parsed method and the
authority and path of the URL with query and fragment stripped. -/
def routeKey (e : Entry) : Option (Method × String) := do
  let m ← e.methodParsed
  let u ← e.uri
  pure (m, u.authorityRaw ++ u.path)

/-- Appends an entry to its key's group, preserving capture order inside
every group; a new key starts a new group. -/
def insertEntry (acc : List ((Method × String) × List Entry))
    (k : Method × String) (e : Entry) : List ((Method × String) × List Entry) :=
  match acc with
  | [] => [(k, [e])]
  | (k', es) :: rest =>
    if k' = k then (k', es ++ [e]) :: rest else (k', es) :: insertEntry rest k e

/-- The grouping loop of `Har::entries` over the remaining entries. -/
def groupEntriesAux (acc : List ((Method × String) × List Entry)) :
    List Entry → Option (List ((Method × String) × List Entry))
  | [] => some acc
  | e :: rest =>
    match routeKey e with
    | none => none
    | some k => groupEntriesAux (insertEntry acc k e) rest

/-- `Har::entries`: group the archive's entries by route key, failing when
any entry's method or URI does not parse.  The Rust `HashMap` iterates its
keys in an unspecified order; the groups are modelled in first-insertion
order, and no claim depends on the order of the groups. -/
def groupEntries (es : List Entry) : Option (List ((Method × String) × List Entry)) :=
  groupEntriesAux [] es

/-- `get_entry_route_path` (src/server.rs): `/` followed by the path when
the entry's host is the origin host, otherwise `/`, the hostname and the
path. -/
def get_entry_route_path (u : ParsedUri) (origin_host : String) : String :=
  if u.host = origin_host then "/" ++ u.path else "/" ++ u.host ++ u.path

/-- `Har::origin_host`: the host of the first entry's URL (indexing an
empty archive panics, and an unparsable URL is an error; both are mapped
to `none`). -/
def origin_host (entries : List Entry) : Option String :=
  (entries.head?.bind Entry.uri).map (·.host)

/-- One route as `build_server` installs it: the group's method, the
string passed to `Route::new`, and the group's entries (the handler's
state). -/
structure BuiltRoute where
  method : Method
  routePath : String
  entries : List Entry
deriving DecidableEq

/-- The body of the route-building loop of `build_server`: one route per
group, whose path is `get_entry_route_path` of the group's first entry
(`entries[0].uri()?`). -/
def collectRoutes (origin : String) :
    List ((Method × String) × List Entry) → Option (List BuiltRoute)
  | [] => some []
  | kes :: rest =>
    match kes.2.head?.bind Entry.uri with
    | none => none
    | some u =>
      (collectRoutes origin rest).map fun rs =>
        { method := kes.1.1
        , routePath := get_entry_route_path u origin
        , entries := kes.2 } :: rs

/-- The route table `build_server` installs: the origin host is resolved,
the entries are grouped, and every group becomes one route.  The
`routed_paths` vector the source also fills is never read again and does
not influence the result. -/
def buildEntryRoutes (har : List Entry) : Option (List BuiltRoute) :=
  (origin_host har).bind fun origin =>
    (groupEntries har).bind (collectRoutes origin)

/-- Modelled from rocket's `Route::new` (rocket 0.5): the route URI is
normalized with `Origin::into_normalized`, which removes empty path
segments, before the route is installed. -/
def normalizeRoutePath (p : String) : String :=
  String.mk ('/' :: joinSlash ((splitSlash p.toList).filter fun s => !s.isEmpty))

/-- The externally visible paths of a built route table, after rocket's
normalization. -/
def installedPaths (routes : List BuiltRoute) : List String :=
  routes.map fun r => normalizeRoutePath r.routePath

/-- `Entry::get_header_value`: the first header whose lower-cased stored
name equals the queried name verbatim. -/
def get_header_value (headers : List Header) (name : String) : Option String :=
  ((headers.filter fun h => lowerStr h.name = name).map (·.value)).head?

/-- `Entry::res_header`: lookup over the response-header side. -/
def Entry.res_header (e : Entry) (name : String) : Option String :=
  get_header_value e.resHeaders name

/-! ## Helper lemmas -/

theorem mem_setHeader {hs : List Header} {n v : String} {h : Header}
    (hm : h ∈ setHeader hs n v) : h ∈ hs ∨ h = ⟨n, v⟩ := by
  simp only [setHeader, List.mem_append, List.mem_filter, List.mem_singleton] at hm
  rcases hm with ⟨hin, _⟩ | rfl
  · exact Or.inl hin
  · exact Or.inr rfl

theorem mem_applyResHeader {hostname : String} {acc : List Header} {hdr h : Header}
    (hm : h ∈ applyResHeader hostname acc hdr) :
    h ∈ acc ∨ lowerStr h.name = lowerStr hdr.name ∧
      ¬ UNFORWARDED_HEADERS.contains (lowerStr hdr.name) := by
  unfold applyResHeader at hm
  by_cases hc : UNFORWARDED_HEADERS.contains (lowerStr hdr.name)
  · simp only [hc, if_true] at hm
    exact Or.inl hm
  · simp only [hc, if_false, Bool.false_eq_true] at hm
    by_cases hl : lowerStr hdr.name = "location" <;> simp only [hl, if_true, if_false] at hm
    · rcases mem_setHeader hm with hin | rfl
      · exact Or.inl hin
      · exact Or.inr ⟨rfl, hc⟩
    · rcases mem_setHeader hm with hin | rfl
      · exact Or.inl hin
      · exact Or.inr ⟨rfl, hc⟩

theorem mem_processResHeaders {hostname : String} {recorded : List Header} :
    ∀ (acc : List Header) {h : Header},
      h ∈ recorded.foldl (applyResHeader hostname) acc →
      h ∈ acc ∨ ¬ UNFORWARDED_HEADERS.contains (lowerStr h.name) := by
  induction recorded with
  | nil => exact fun acc _ hm => Or.inl hm
  | cons hdr rest ih =>
    intro acc h hm
    rcases ih (applyResHeader hostname acc hdr) hm with hin | hgood
    · rcases mem_applyResHeader hin with hin2 | ⟨heq, hgood⟩
      · exact Or.inl hin2
      · exact Or.inr (heq ▸ hgood)
    · exact Or.inr hgood

theorem filter_ne_filter_eq (s : String) (l : List Header) :
    (l.filter fun h => lowerStr h.name ≠ s).filter
      (fun h => lowerStr h.name = s) = [] := by
  induction l with
  | nil => rfl
  | cons h rest ih =>
    by_cases hp : lowerStr h.name = s <;> simp [List.filter, hp, ih]

/-! ## C3: denylisted headers never appear in a replayed response -/

/-- C3: for every entry hostname and every recorded response-header list,
no header of the synthesized (non-proxy) response has a lower-cased name
in the denylist {x-frame-options, x-content-type-options,
x-xss-protection, access-control-allow-origin,
access-control-allow-credentials, content-encoding, transfer-encoding,
content-length}, regardless of which headers the archive recorded. -/
theorem c3_denylist_never_replayed (hostname : String) (recorded : List Header)
    (h : Header) (hm : h ∈ buildResponseHeaders hostname recorded) :
    lowerStr h.name ∉ UNFORWARDED_HEADERS := by
  unfold buildResponseHeaders at hm
  rcases mem_setHeader hm with hin | rfl
  · rcases mem_processResHeaders [] hin with habs | hgood
    · cases habs
    · intro hmem
      exact hgood (List.elem_eq_true_of_mem hmem)
  · decide

/-- Witness for C3: the `Date` header of a concrete recorded response
survives into the replayed response and its name is not denylisted. -/
theorem c3_witness :
    (⟨"Date", "now"⟩ : Header) ∈
        buildResponseHeaders "example.com"
          [⟨"Content-Length", "5"⟩, ⟨"Date", "now"⟩] ∧
      lowerStr "Date" ∉ UNFORWARDED_HEADERS :=
  ⟨by decide, c3_denylist_never_replayed "example.com"
    [⟨"Content-Length", "5"⟩, ⟨"Date", "now"⟩] ⟨"Date", "now"⟩ (by decide)⟩

/-! ## C6: the CSP header is always the fixed policy -/

/-- C6: every synthesized (non-proxy) response carries exactly one
Content-Security-Policy header and its value is the fixed policy string,
whatever CSP the archive recorded. -/
theorem c6_csp_fixed (hostname : String) (recorded : List Header) :
    (buildResponseHeaders hostname recorded).filter
        (fun h => lowerStr h.name = "content-security-policy") =
      [⟨"content-security-policy",
        "base-uri 'self'; default-src * 'unsafe-inline' 'unsafe-eval'; worker-src 'self'"⟩] := by
  unfold buildResponseHeaders setHeader
  have hl : lowerStr "content-security-policy" = "content-security-policy" := by decide
  rw [List.filter_append, hl,
    filter_ne_filter_eq "content-security-policy" (processResHeaders hostname recorded)]
  decide

/-! ## Concrete data used by witnesses and counterexamples -/

/-- A benign environment: no override files, a dummy digest. -/
def envNoFs : Env :=
  { md5hex := fun _ => "", fsExists := fun _ => false, fsRead := fun _ => .error () }

/-- First capture of `/a` on the origin host. -/
def wEntry1 : Entry :=
  { method := "GET", url := "https://example.com/a?x=1", resHeaders := []
  , status := 200, contentText := some "one" }

/-- Second capture of `/a` on the origin host, different query. -/
def wEntry2 : Entry :=
  { method := "GET", url := "https://example.com/a?x=2", resHeaders := []
  , status := 201, contentText := some "two" }

/-- The parsed URL of `wEntry1`. -/
def wUri1 : ParsedUri :=
  { scheme := "https", authorityRaw := "example.com", host := "example.com"
  , path := "/a", query := some "x=1", fragment := none }

/-- The parsed URL of `wEntry2`. -/
def wUri2 : ParsedUri :=
  { scheme := "https", authorityRaw := "example.com", host := "example.com"
  , path := "/a", query := some "x=2", fragment := none }

/-! ## C1: candidate selection by exact query match -/

/-- C1: the entry handler forwards the request when no entry of the group
has the inbound query string, and otherwise replays the earliest entry
(in the group's capture order) whose query string equals the inbound one
exactly. -/
theorem c1_query_selection :
    (∀ (env : Env) (dump : Option (List String)) (q : Option String)
       (entries : List Entry),
       (∀ e ∈ entries, ∃ u, e.uri = some u ∧ u.query ≠ q) →
       entryHandle env dump q entries = .forward)
    ∧ (∀ (env : Env) (dump : Option (List String)) (q : Option String)
         (entries : List Entry) (i : Nat) (hi : i < entries.length)
         (u : ParsedUri),
         (entries.get ⟨i, hi⟩).uri = some u → u.query = q →
         (∀ j (hj : j < entries.length), j < i →
            ∃ u', (entries.get ⟨j, hj⟩).uri = some u' ∧ u'.query ≠ q) →
         entryHandle env dump q entries = respond env dump (entries.get ⟨i, hi⟩) u) := by
  constructor
  · intro env dump q entries hall
    induction entries with
    | nil => rfl
    | cons e rest ih =>
      obtain ⟨u, hu, hq⟩ := hall e (List.mem_cons_self e rest)
      unfold entryHandle
      rw [hu]
      simp only [hq, if_false]
      exact ih fun e' he' => hall e' (List.mem_cons_of_mem e he')
  · intro env dump q entries i hi u hu hq hbefore
    induction entries generalizing i with
    | nil => cases hi
    | cons e rest ih =>
      cases i with
      | zero =>
        simp only [List.get] at hu ⊢
        unfold entryHandle
        rw [hu]
        simp [hq]
      | succ i' =>
        obtain ⟨u', hu', hq'⟩ :=
          hbefore 0 (Nat.zero_lt_succ _) (Nat.zero_lt_succ _)
        simp only [List.get] at hu' hu ⊢
        unfold entryHandle
        rw [hu']
        simp only [hq', if_false]
        exact ih i' (Nat.lt_of_succ_lt_succ hi) hu
          fun j hj hlt =>
            hbefore (j + 1) (Nat.succ_lt_succ hj) (Nat.succ_lt_succ hlt)

/-- Witness for C1: on the two-entry group for `/a`, a request with query
`x=2` is answered from the second-captured entry. -/
theorem c1_witness :
    entryHandle envNoFs none (some "x=2") [wEntry1, wEntry2] =
      respond envNoFs none wEntry2 wUri2 := by
  have h := c1_query_selection.2 envNoFs none (some "x=2") [wEntry1, wEntry2]
    1 (by decide) wUri2 (by decide) (by decide)
    (fun j hj hlt => by
      match j, hlt with
      | 0, _ => exact ⟨wUri1, rfl, by decide⟩)
  exact h

/-! ## C2: externally routable paths of origin-host entries -/

theorem splitSlash_ne_nil (cs : List Char) : splitSlash cs ≠ [] := by
  cases cs with
  | nil => simp [splitSlash]
  | cons c rest =>
    unfold splitSlash
    by_cases hc : c = '/'
    · simp [hc]
    · rw [if_neg hc]
      rcases splitSlash rest with _ | ⟨s, ss⟩ <;> simp

theorem joinSlash_splitSlash (cs : List Char) : joinSlash (splitSlash cs) = cs := by
  induction cs with
  | nil => rfl
  | cons c rest ih =>
    unfold splitSlash
    by_cases hc : c = '/'
    · rw [if_pos hc, hc]
      rcases hs : splitSlash rest with _ | ⟨s, ss⟩
      · exact absurd hs (splitSlash_ne_nil rest)
      · rw [hs] at ih
        show [] ++ '/' :: joinSlash (s :: ss) = '/' :: rest
        simp [ih]
    · rw [if_neg hc]
      rcases hs : splitSlash rest with _ | ⟨s, ss⟩
      · exact absurd hs (splitSlash_ne_nil rest)
      · rw [hs] at ih
        cases ss with
        | nil =>
          show c :: s = c :: rest
          rw [show joinSlash [s] = s from rfl] at ih
          rw [ih]
        | cons t ts =>
          show (c :: s) ++ '/' :: joinSlash (t :: ts) = c :: rest
          have h2 : s ++ '/' :: joinSlash (t :: ts) = rest := ih
          simp [h2]

/-- C2: when an entry's host equals the origin host, the path rocket
installs for its group (the source's `format!("/{}", path)` after
rocket's route-URI normalization) is the entry's URL path alone; and the
two-entry archive for `https://example.com/a?x=1` / `?x=2` builds exactly
one route group, at external path `/a`, holding both entries in capture
order. -/
theorem c2_local_route_path :
    (∀ (u : ParsedUri) (origin : String) (m : List Char),
        u.host = origin → u.path = String.mk ('/' :: m) →
        (∀ s ∈ splitSlash m, s ≠ []) →
        normalizeRoutePath (get_entry_route_path u origin) = u.path)
    ∧ (buildEntryRoutes [wEntry1, wEntry2]).map
          (List.map fun r => (r.routePath, normalizeRoutePath r.routePath, r.entries)) =
        some [("//a", "/a", [wEntry1, wEntry2])] := by
  constructor
  · intro u origin m hh hp hseg
    unfold get_entry_route_path
    rw [if_pos hh, hp]
    have happ : ("/" : String) ++ String.mk ('/' :: m) = String.mk ('/' :: '/' :: m) := rfl
    rw [happ]
    unfold normalizeRoutePath
    have hsplit : splitSlash (String.mk ('/' :: '/' :: m)).toList =
        [] :: [] :: splitSlash m := rfl
    rw [hsplit]
    have hfilter : (([] :: [] :: splitSlash m).filter fun s => !s.isEmpty) =
        splitSlash m := by
      have h0 : (([] :: [] :: splitSlash m).filter fun s => !s.isEmpty) =
          (splitSlash m).filter fun s => !s.isEmpty := by simp
      rw [h0, List.filter_eq_self.mpr]
      intro s hs
      have := hseg s hs
      simp [List.isEmpty_iff, this]
    rw [hfilter, joinSlash_splitSlash]
  · decide

/-- Witness for C2: the parsed URL of the first example entry, whose host
is the origin host, is installed at its own path `/a`. -/
theorem c2_witness :
    normalizeRoutePath (get_entry_route_path wUri1 "example.com") = wUri1.path :=
  c2_local_route_path.1 wUri1 "example.com" ['a'] (by decide) (by decide) (by decide)

/-! ## C7: Location header rewriting -/

/-- An entry captured from `example.com` whose response redirects to the
root-relative `/foo`. -/
def locEntryRoot : Entry :=
  { method := "GET", url := "https://example.com/r"
  , resHeaders := [⟨"Location", "/foo"⟩], status := 302, contentText := none }

/-- An entry captured from `example.com` whose response redirects to the
relative `foo` (no leading slash). -/
def locEntryRel : Entry :=
  { method := "GET", url := "https://example.com/r"
  , resHeaders := [⟨"Location", "foo"⟩], status := 302, contentText := none }

/-- C7: a response header whose lower-cased name is `location` is always
replayed with the rewritten value (the denylist never swallows it), and
end to end an entry captured from host `example.com` replays a recorded
`Location` of `/foo` as `/example.com/foo` and a recorded relative `foo`
as `/example.com/foo` as well. -/
theorem c7_location_rewrite :
    (∀ (hostname nm v : String) (acc : List Header), lowerStr nm = "location" →
        applyResHeader hostname acc ⟨nm, v⟩ =
          setHeader acc nm (rewriteLocation hostname v))
    ∧ entryHandle envNoFs none none [locEntryRoot] =
        .success { status := 302
                 , headers := [⟨"Location", "/example.com/foo"⟩,
                     ⟨"content-security-policy",
                      "base-uri 'self'; default-src * 'unsafe-inline' 'unsafe-eval'; worker-src 'self'"⟩]
                 , body := [] }
    ∧ entryHandle envNoFs none none [locEntryRel] =
        .success { status := 302
                 , headers := [⟨"Location", "/example.com/foo"⟩,
                     ⟨"content-security-policy",
                      "base-uri 'self'; default-src * 'unsafe-inline' 'unsafe-eval'; worker-src 'self'"⟩]
                 , body := [] } := by
  refine ⟨?_, by decide, by decide⟩
  intro hostname nm v acc h
  simp +decide [applyResHeader, h]

/-- Witness for C7: the rewrite clause applied to a concrete `Location`
header. -/
theorem c7_witness :
    applyResHeader "example.com" [] ⟨"Location", "/foo"⟩ =
      setHeader [] "Location" (rewriteLocation "example.com" "/foo") :=
  c7_location_rewrite.1 "example.com" "Location" "/foo" [] (by decide)

/-! ## C8: override files shadow the embedded body -/

/-- C8: when an override directory is configured and a file exists at the
entry's dump path, the body of the replayed response is exactly what the
filesystem read returns — whatever content text the archive embeds; when
no file exists there, or no override directory is configured, the body is
the entry's embedded body. -/
theorem c8_override_body :
    (∀ (env : Env) (base : List String) (e : Entry) (p : List String)
        (bytes : List Nat),
        e.get_dump_path env.md5hex base = some p → env.fsExists p = true →
        e.uri.isSome → env.fsRead p = .ok bytes →
        get_body env (some base) e = .ok bytes ∧
          ∀ t, get_body env (some base) { e with contentText := t } = .ok bytes)
    ∧ (∀ (env : Env) (base : List String) (e : Entry) (p : List String),
        e.get_dump_path env.md5hex base = some p → env.fsExists p = false →
        e.methodParsed.isSome → e.uri.isSome →
        get_body env (some base) e = .ok (e.res_body.getD []))
    ∧ (∀ (env : Env) (e : Entry), e.methodParsed.isSome → e.uri.isSome →
        get_body env none e = .ok (e.res_body.getD [])) := by
  refine ⟨?_, ?_, ?_⟩
  · intro env base e p bytes hdp hex hu hread
    constructor
    · simp [get_body, hdp, hex, hu, hread]
    · intro t
      have hdp' : Entry.get_dump_path env.md5hex { e with contentText := t } base
          = some p := hdp
      have hu' : ({ e with contentText := t } : Entry).uri.isSome := hu
      simp [get_body, hdp', hex, hu', hread]
  · intro env base e p hdp hex hm hu
    simp [get_body, harBody, hdp, hex, hm, hu]
  · intro env e hm hu
    simp [get_body, harBody, hm, hu]

/-- An environment whose filesystem holds an override file everywhere. -/
def envOverride : Env :=
  { md5hex := fun _ => "", fsExists := fun _ => true
  , fsRead := fun _ => .ok [1, 2, 3] }

/-- Witness for C8: with an override file present at the first example
entry's dump path, the body served is the file's bytes. -/
theorem c8_witness :
    get_body envOverride (some ["base"]) wEntry1 = .ok [1, 2, 3] :=
  (c8_override_body.1 envOverride ["base"] wEntry1
    ["base", "GET", "example.com", "a?x=1"] [1, 2, 3]
    (by decide) rfl (by decide) rfl).1

/-! ## C4: per-request error handling -/

/-- A configured upstream URL used in the proxy statements. -/
def upExample : Url :=
  { scheme := "http", host := "up.example", port := some 8080
  , path := "/base", query := some "k=v" }

/-- An inbound request with no query string, with headers and a body. -/
def reqNoQuery : InboundRequest :=
  { method := .get, path := "/missing", query := none
  , headers := [⟨"X-Inbound", "1"⟩], body := [7] }

/-- Counterexample for C4: when the upstream transport fails, the proxy
handler's outcome is a panic (the `unwrap` on `client.execute`), not the
server-error outcome the claim promises (the entry handler's error
reporting shape, `Outcome::Failure(500)`). -/
theorem c4_counterexample :
    proxyHandle upExample reqNoQuery (.error ()) = .panicked ∧
      Outcome.panicked ≠ Outcome.failure 500 := by
  exact ⟨rfl, by decide⟩

/-- C4 (amended): an I/O failure while resolving the selected entry's
body is reported as an internal server error (500) for that request; an
upstream transport failure is not handled by the program — the proxy
handler panics. -/
theorem c4_per_request_errors :
    (∀ (env : Env) (dump : Option (List String)) (q : Option String)
        (e : Entry) (rest : List Entry) (u : ParsedUri),
        e.uri = some u → u.query = q → get_body env dump e = .error () →
        entryHandle env dump q (e :: rest) = .failure 500)
    ∧ (∀ (up : Url) (req : InboundRequest),
        proxyHandle up req (.error ()) = .panicked) := by
  constructor
  · intro env dump q e rest u hu hq herr
    unfold entryHandle
    rw [hu]
    simp only [hq, if_true]
    unfold respond
    rw [herr]
  · intro up req
    rfl

/-- An environment where the override file exists but reading it fails. -/
def envReadFail : Env :=
  { md5hex := fun _ => "", fsExists := fun _ => true
  , fsRead := fun _ => .error () }

/-- Witness for C4: a failing override read on a matched entry yields a
500 for that request. -/
theorem c4_witness :
    entryHandle envReadFail (some ["base"]) (some "x=1") [wEntry1] =
      .failure 500 :=
  c4_per_request_errors.1 envReadFail (some ["base"]) (some "x=1")
    wEntry1 [] wUri1 (by decide) rfl rfl

/-! ## C5: external-path collisions are not detected -/

/-- An origin-host entry whose path happens to start with a foreign
hostname. -/
def eColA : Entry :=
  { method := "GET", url := "https://example.com/other.com/a", resHeaders := []
  , status := 200, contentText := none }

/-- A foreign-host entry whose hostname-prefixed external path collides
with `eColA`'s. -/
def eColB : Entry :=
  { method := "GET", url := "https://other.com/a", resHeaders := []
  , status := 200, contentText := none }

/-- Counterexample for C5: two different route keys map to the same
externally visible path, and both groups are installed — nothing is
skipped, so two installed routes share one external path. -/
theorem c5_counterexample :
    (buildEntryRoutes [eColA, eColB]).map installedPaths =
        some ["/other.com/a", "/other.com/a"] ∧
      ¬ (["/other.com/a", "/other.com/a"] : List String).Nodup := by
  exact ⟨by decide, by decide⟩

theorem routeKey_uri_ne_none {e : Entry} {k : Method × String}
    (h : routeKey e = some k) : e.uri ≠ none := by
  intro hu
  unfold routeKey at h
  rw [hu] at h
  cases hm : e.methodParsed <;> rw [hm] at h <;> simp at h

theorem insertEntry_heads {acc : List ((Method × String) × List Entry)}
    {k : Method × String} {e : Entry}
    (hacc : ∀ g ∈ acc, ∃ a, g.2.head? = some a ∧ a.uri ≠ none)
    (hk : routeKey e = some k) :
    ∀ g ∈ insertEntry acc k e, ∃ a, g.2.head? = some a ∧ a.uri ≠ none := by
  induction acc with
  | nil =>
    intro g hg
    simp only [insertEntry, List.mem_singleton] at hg
    subst hg
    exact ⟨e, rfl, routeKey_uri_ne_none hk⟩
  | cons g0 rest ih =>
    intro g hg
    obtain ⟨k', es⟩ := g0
    unfold insertEntry at hg
    by_cases hke : k' = k
    · simp only [hke, if_true] at hg
      rcases List.mem_cons.mp hg with rfl | hin
      · cases es with
        | nil => exact ⟨e, rfl, routeKey_uri_ne_none hk⟩
        | cons a es' =>
          obtain ⟨a', ha', hu'⟩ := hacc (k', a :: es') (List.mem_cons_self _ _)
          exact ⟨a', ha', hu'⟩
      · exact hacc g (List.mem_cons_of_mem _ hin)
    · simp only [hke, if_false] at hg
      rcases List.mem_cons.mp hg with rfl | hin
      · exact hacc (k', es) (List.mem_cons_self _ _)
      · exact ih (fun g' hg' => hacc g' (List.mem_cons_of_mem _ hg')) g hin

theorem groupEntriesAux_heads {es : List Entry} :
    ∀ {acc out}, groupEntriesAux acc es = some out →
      (∀ g ∈ acc, ∃ a, g.2.head? = some a ∧ a.uri ≠ none) →
      ∀ g ∈ out, ∃ a, g.2.head? = some a ∧ a.uri ≠ none := by
  induction es with
  | nil =>
    intro acc out h hacc
    unfold groupEntriesAux at h
    cases h
    exact hacc
  | cons e rest ih =>
    intro acc out h hacc
    unfold groupEntriesAux at h
    cases hk : routeKey e with
    | none => rw [hk] at h; cases h
    | some k =>
      rw [hk] at h
      exact ih h (insertEntry_heads hacc hk)

theorem collectRoutes_some (origin : String) :
    ∀ {groups : List ((Method × String) × List Entry)},
      (∀ g ∈ groups, ∃ a, g.2.head? = some a ∧ a.uri ≠ none) →
      ∃ routes, collectRoutes origin groups = some routes ∧
        routes.length = groups.length := by
  intro groups
  induction groups with
  | nil => exact fun _ => ⟨[], rfl, rfl⟩
  | cons g rest ih =>
    intro hall
    obtain ⟨a, ha, hu⟩ := hall g (List.mem_cons_self _ _)
    obtain ⟨u, hu'⟩ := Option.ne_none_iff_exists'.mp hu
    obtain ⟨rs, hrs, hlen⟩ := ih fun g' hg' => hall g' (List.mem_cons_of_mem _ hg')
    refine ⟨{ method := g.1.1, routePath := get_entry_route_path u origin
            , entries := g.2 } :: rs, ?_, ?_⟩
    · unfold collectRoutes
      rw [ha]
      simp [Option.bind, hu', hrs]
    · simp [hlen]

/-- C5 (amended): route-table construction performs no external-path
collision detection — after grouping succeeds, every group is installed
as its own route (one route per group, collisions included); the
`routed_paths` vector the source collects is never consulted. -/
theorem c5_no_collision_detection (har : List Entry)
    (groups : List ((Method × String) × List Entry)) (origin : String)
    (hg : groupEntries har = some groups) (ho : origin_host har = some origin) :
    ∃ routes, buildEntryRoutes har = some routes ∧
      routes.length = groups.length := by
  have hheads := groupEntriesAux_heads hg (by intro g hg'; cases hg')
  obtain ⟨routes, hroutes, hlen⟩ := collectRoutes_some origin hheads
  refine ⟨routes, ?_, hlen⟩
  unfold buildEntryRoutes
  rw [ho, hg]
  simpa using hroutes

/-- Witness for C5 (amended): the colliding two-entry archive builds a
route table with one route per group — both colliding groups included. -/
theorem c5_witness :
    ∃ routes, buildEntryRoutes [eColA, eColB] = some routes ∧
      routes.length = 2 := by
  have h := c5_no_collision_detection [eColA, eColB]
    [((.get, "example.com/other.com/a"), [eColA]),
     ((.get, "other.com/a"), [eColB])]
    "example.com" (by decide) (by decide)
  simpa using h

/-! ## C9: header lookup is case-insensitive only in the stored name -/

/-- Counterexample for C9: the lookup lower-cases only the stored header
name, so querying with any non-lowercase name — here `Location` against a
stored `Location` — finds nothing, while the lowercase query finds it. -/
theorem c9_counterexample :
    get_header_value [⟨"Location", "/x"⟩] "Location" = none ∧
      get_header_value [⟨"Location", "/x"⟩] "location" = some "/x" := by
  exact ⟨by decide, by decide⟩

theorem get_header_value_eq_find (hs : List Header) (n : String) :
    get_header_value hs n =
      (hs.find? fun h => lowerStr h.name = n).map (·.value) := by
  induction hs with
  | nil => rfl
  | cons h rest ih =>
    by_cases hp : lowerStr h.name = n
    · rw [List.find?_cons_of_pos _ (by simpa using hp)]
      simp [get_header_value, List.filter_cons, hp]
    · rw [List.find?_cons_of_neg _ (by simpa using hp)]
      unfold get_header_value at ih ⊢
      rw [List.filter_cons, if_neg (by simpa using hp)]
      exact ih

/-- C9 (amended): the per-entry header lookup lower-cases the stored
header names and compares them with the queried name verbatim: it is
case-insensitive in the stored names (any stored casing behaves alike)
and returns the first header whose lower-cased name equals the queried
string, but a queried name that is not already lowercase never matches. -/
theorem c9_lookup_semantics :
    (∀ (hs hs' : List Header) (n : String),
        hs.map (fun h => (lowerStr h.name, h.value)) =
          hs'.map (fun h => (lowerStr h.name, h.value)) →
        get_header_value hs n = get_header_value hs' n)
    ∧ (∀ (hs : List Header) (n : String),
        get_header_value hs n =
          (hs.find? fun h => lowerStr h.name = n).map (·.value)) := by
  refine ⟨?_, get_header_value_eq_find⟩
  intro hs
  induction hs with
  | nil =>
    intro hs' n h
    cases hs' with
    | nil => rfl
    | cons _ _ => simp at h
  | cons a rest ih =>
    intro hs' n h
    cases hs' with
    | nil => simp at h
    | cons b rest' =>
      simp only [List.map_cons, List.cons.injEq, Prod.mk.injEq] at h
      obtain ⟨⟨hname, hval⟩, htail⟩ := h
      rw [get_header_value_eq_find, get_header_value_eq_find]
      by_cases hp : lowerStr a.name = n
      · have hb : lowerStr b.name = n := by rw [← hname]; exact hp
        rw [List.find?_cons_of_pos _ (by simpa using hp),
          List.find?_cons_of_pos _ (by simpa using hb)]
        simp [hval]
      · have hb : ¬ lowerStr b.name = n := by rw [← hname]; exact hp
        rw [List.find?_cons_of_neg _ (by simpa using hp),
          List.find?_cons_of_neg _ (by simpa using hb),
          ← get_header_value_eq_find, ← get_header_value_eq_find]
        exact ih rest' n htail

/-- Witness for C9 (amended): two stored casings of `Location` answer the
same lookup identically. -/
theorem c9_witness :
    get_header_value [⟨"LOCATION", "/x"⟩] "location" =
      get_header_value [⟨"location", "/x"⟩] "location" :=
  c9_lookup_semantics.1 [⟨"LOCATION", "/x"⟩] [⟨"location", "/x"⟩]
    "location" (by decide)

/-! ## C10: the request forwarded to the upstream proxy -/

/-- Modelled from C10's words, for comparison with `buildProxyRequest`:
only the inbound method, path and query, applied onto the upstream's
scheme, host and port; no headers, no body. -/
def specProxyRequest (upstream : Url) (req : InboundRequest) : OutboundRequest :=
  { method := req.method
  , url := { scheme := upstream.scheme, host := upstream.host
           , port := upstream.port, path := req.path, query := req.query }
  , headers := [], body := none }

/-- Counterexample for C10: when the inbound request carries no query
string, the upstream URL's own query survives into the forwarded request,
so the forwarded request is not built from the inbound path and query
alone. -/
theorem c10_counterexample :
    buildProxyRequest upExample reqNoQuery ≠
        specProxyRequest upExample reqNoQuery ∧
      (buildProxyRequest upExample reqNoQuery).url.query = some "k=v" ∧
      reqNoQuery.query = none := by
  exact ⟨by decide, rfl, rfl⟩

/-- C10 (amended): the forwarded request carries the inbound method, the
inbound path, and — only when the inbound request has one — the inbound
query string (otherwise the upstream URL's own query is kept); the
upstream's scheme, host and port are preserved; none of the inbound
request's headers and none of its body are forwarded. -/
theorem c10_proxy_request (up : Url) (req : InboundRequest) :
    (buildProxyRequest up req).method = req.method ∧
      (buildProxyRequest up req).url.scheme = up.scheme ∧
      (buildProxyRequest up req).url.host = up.host ∧
      (buildProxyRequest up req).url.port = up.port ∧
      (buildProxyRequest up req).url.path = req.path ∧
      (buildProxyRequest up req).headers = [] ∧
      (buildProxyRequest up req).body = none ∧
      (∀ q, req.query = some q → (buildProxyRequest up req).url.query = some q) ∧
      (req.query = none → (buildProxyRequest up req).url.query = up.query) := by
  cases hq : req.query <;>
    simp [buildProxyRequest, hq]

/-- Witness for C10 (amended): a concrete inbound query is applied onto
the upstream URL. -/
theorem c10_witness :
    (buildProxyRequest upExample
        { method := .get, path := "/missing", query := some "x=9"
        , headers := [], body := [] }).url.query = some "x=9" :=
  (c10_proxy_request upExample
      { method := .get, path := "/missing", query := some "x=9"
      , headers := [], body := [] }).2.2.2.2.2.2.2.1 "x=9" rfl

end Harbinger
